import Mathlib

/-!
Verification development for the DOC-AI retrieval-augmented-generation backend.

The Python sources are shallowly embedded:
- strings are `List Char`; Python indices are `Int` (Python's negative-index
  adjustment for `str.rfind` and slicing is modelled explicitly);
- the chunker's `while` loop is fuel-indexed (`none` = fuel exhausted);
- MongoDB collections are association lists kept in insertion order;
- the FAISS index is abstracted to its observable interface: `total_vectors`
  and a `(slot, distance)` answer list (distances as `ℚ`);
- the generation provider (an external collaborator) is abstracted to an
  outcome value `Except String String`;
- the citation relevance score is stated over `ℝ` (the spec states it as
  exact real arithmetic).
-/

/-- Python `str.isspace`-style whitespace test used by `str.strip()`
(ASCII subset, which is all the repository's fixed strings use). -/
def pyIsSpace (c : Char) : Bool :=
  c == ' ' || c == '\t' || c == '\n' || c == '\r' || c == Char.ofNat 11 || c == Char.ofNat 12

/-- Python `str.strip()`: remove whitespace from both ends. -/
def pyStrip (l : List Char) : List Char :=
  ((l.dropWhile pyIsSpace).reverse.dropWhile pyIsSpace).reverse

/-- Python's index adjustment for slice / `rfind` bounds: a negative index
counts from the end (clamped at 0), a too-large index is clamped to the
length. -/
def pyAdjIndex (n : Nat) (i : Int) : Nat :=
  if i < 0 then ((n : Int) + i).toNat else min i.toNat n

/-- Python slice `t[a:b]`. -/
def pySlice (t : List Char) (a b : Int) : List Char :=
  (t.take (pyAdjIndex t.length b)).drop (pyAdjIndex t.length a)

/-- `sub` occurs in `t` starting at position `i`. -/
def subAt (t sub : List Char) (i : Nat) : Bool :=
  decide ((t.drop i).take sub.length = sub)

/-- Python `t.rfind(sub, a, b)`: the largest `i` with
`adj a ≤ i`, `i + |sub| ≤ adj b` and `sub` occurring at `i`; `-1` if none. -/
def pyRfind (t sub : List Char) (a b : Int) : Int :=
  match ((List.range (t.length + 1)).filter
      (fun i => decide (pyAdjIndex t.length a ≤ i) &&
        decide (i + sub.length ≤ pyAdjIndex t.length b) && subAt t sub i)).getLast? with
  | some i => (i : Int)
  | none => -1

/-- A chunk as produced by `chunk_text` (`app/services/chunking.py`):
stripped text plus positional metadata into the original text. -/
structure PyChunk where
  text : List Char
  chunk_index : Nat
  start_char : Int
  end_char : Int
deriving DecidableEq, Repr

/-- The boundary markers in the order the code tries them
(`chunking.py` line 44): sentence terminators first, then paragraph
break, then newline. -/
def codeBoundaries : List (List Char) := [['.', ' '], ['!', ' '], ['?', ' '], ['\n', '\n'], ['\n']]

/-- The boundary markers in the priority order the spec claims:
paragraph break, newline, then sentence terminators. -/
def specBoundaries : List (List Char) := [['\n', '\n'], ['\n'], ['.', ' '], ['!', ' '], ['?', ' ']]

/-- The `for boundary in [...] ... else` loop of `chunk_text`: try each
marker in order with `rfind`; the first marker with an occurrence wins
(cut right after it); `none` means the `else` (space fallback) runs. -/
def forBoundaries (t : List Char) (s e : Int) : List (List Char) → Option Int
  | [] => none
  | b :: rest =>
    if pyRfind t b s e = -1 then forBoundaries t s e rest
    else some (pyRfind t b s e + b.length)

/-- The cut-point computation of `chunk_text` for a window `[start, e0)`
whose tentative end `e0` is before the end of the text: marker search in
`codeBoundaries` order, space fallback (only strictly after `start`),
else the raw window boundary. -/
def computeEnd (t : List Char) (start e0 : Int) : Int :=
  (forBoundaries t start e0 codeBoundaries).getD
    (if pyRfind t [' '] start e0 ≠ -1 ∧ start < pyRfind t [' '] start e0
     then pyRfind t [' '] start e0 + 1 else e0)

/-- Modelled from the spec's words (for comparison with `computeEnd`):
identical search but with the spec's claimed priority order
`specBoundaries` (paragraph break, newline, sentence terminators). -/
def specComputeEnd (t : List Char) (start e0 : Int) : Int :=
  (forBoundaries t start e0 specBoundaries).getD
    (if pyRfind t [' '] start e0 ≠ -1 ∧ start < pyRfind t [' '] start e0
     then pyRfind t [' '] start e0 + 1 else e0)

/-- The end position of the window starting at `start`: the boundary-aware
cut if the tentative end is before the text's end, else the text's end. -/
def stepEnd (t : List Char) (cs : Nat) (start : Int) : Int :=
  if start + (cs : Int) < t.length then computeEnd t start (start + cs) else t.length

/-- Append the window's stripped segment as a chunk, unless it strips to
empty (`if chunk_text:` in the source). -/
def chunkAppend (t : List Char) (start e : Int) (acc : List PyChunk) : List PyChunk :=
  if pyStrip (pySlice t start e) = [] then acc
  else acc ++ [⟨pyStrip (pySlice t start e), acc.length, start, e⟩]

/-- The cursor update `start = end - chunk_overlap` followed by the
clamp `if start <= chunks[-1].start_char if chunks else 0: start = end`.
The Python line parses as a conditional expression, so with no chunks the
condition is the (falsy) literal `0` and no clamp happens. -/
def nextStart (ov : Nat) (e : Int) (acc : List PyChunk) : Int :=
  match acc.getLast? with
  | some c => if e - (ov : Int) ≤ c.start_char then e else e - ov
  | none => e - ov

/-- One iteration of the `while start < len(text)` loop of `chunk_text`. -/
def chunkStep (t : List Char) (cs ov : Nat) (start : Int) (acc : List PyChunk) :
    Int × List PyChunk :=
  (nextStart ov (stepEnd t cs start) (chunkAppend t start (stepEnd t cs start) acc),
   chunkAppend t start (stepEnd t cs start) acc)

/-- Fuel-indexed `while` loop of `chunk_text` (`none` = fuel exhausted,
i.e. within the given bound the loop has not terminated). -/
def chunkLoop (t : List Char) (cs ov : Nat) : Nat → Int → List PyChunk → Option (List PyChunk)
  | 0, start, acc => if (t.length : Int) ≤ start then some acc else none
  | fuel+1, start, acc =>
    if (t.length : Int) ≤ start then some acc
    else chunkLoop t cs ov fuel (chunkStep t cs ov start acc).1 (chunkStep t cs ov start acc).2

/-- `chunk_text(text, chunk_size, chunk_overlap)`: blank input short-circuits
to the empty list, otherwise run the loop from cursor 0. -/
def chunkText (t : List Char) (cs ov : Nat) (fuel : Nat) : Option (List PyChunk) :=
  if pyStrip t = [] then some [] else chunkLoop t cs ov fuel 0 []

/-- Modelled from the amended claim for the cut point: searching backward
from the tentative end, take the first marker in the priority order
`'. '`, `'! '`, `'? '`, paragraph break, newline that occurs in the
window (cutting right after its last occurrence), else the last space
strictly after the window start, else the raw window boundary. -/
def amendedCut (t : List Char) (start e0 : Int) : Int :=
  (((codeBoundaries.findSome? (fun m =>
      if pyRfind t m start e0 = -1 then none
      else some (pyRfind t m start e0 + m.length))).orElse
    (fun _ =>
      if pyRfind t [' '] start e0 ≠ -1 ∧ start < pyRfind t [' '] start e0
      then some (pyRfind t [' '] start e0 + 1) else none)).getD e0)

/-- Window input on which the code's marker priority and the spec's
claimed priority disagree: both `'. '` (at 1) and a paragraph break
(at 4) occur in the window `[0, 10)`. -/
def exC4 : List Char := "a. b\n\ncdefghij".toList

/-- Input on which `chunk_text` loops forever with `chunk_size = 10`,
`chunk_overlap = 5`: 8 spaces, a newline, 15 spaces, `x`. The window
`[4, 14)` always cuts at the newline (position 8), the segment strips to
empty and is discarded, and the cursor returns to `9 - 5 = 4`; the
progress clamp never fires because no chunk has been emitted. -/
def failC5 : List Char := "        \n               x".toList

/-- Input whose trailing whitespace windows are discarded, so the chunk
ranges do not cover `[0, len)`. -/
def exC6 : List Char := "ab   ".toList

/-- Per-chunk well-formedness: offsets into the original text, non-empty
trimmed segment. -/
def chunkOk (t : List Char) (c : PyChunk) : Prop :=
  0 ≤ c.start_char ∧ c.start_char < c.end_char ∧ c.end_char ≤ (t.length : Int) ∧ c.text ≠ []

/-- Loop invariant of `chunk_text` at the head of each iteration:
a lower bound on the cursor, well-formedness of every emitted chunk,
sequential chunk indices, strictly increasing start offsets, the cursor
strictly beyond the last emitted start, and (for texts shorter than the
window) non-negativity of the cursor. -/
def chunkInv (t : List Char) (cs : Nat) (start : Int) (acc : List PyChunk) : Prop :=
  (0 ≤ start ∨ (2 ≤ (cs : Int) ∧ 2 - (cs : Int) ≤ start)) ∧
  (∀ c ∈ acc, chunkOk t c) ∧
  acc.map PyChunk.chunk_index = List.range acc.length ∧
  List.Chain' (fun a b => a.start_char < b.start_char) acc ∧
  (∀ c ∈ acc.getLast?, c.start_char < start) ∧
  ((t.length : Int) < (cs : Int) → 0 ≤ start ∧ (acc = [] → start = 0))

/-- A persisted `ChunkMetadata` record of the `chunks` collection
(`ingestion.py`, step 7). `created_at` (wall-clock time) is outside the
model. -/
structure ChunkRecord where
  document_id : String
  user_email : String
  filename : String
  chunk_index : Nat
  faiss_index : Int
  text : List Char
  start_char : Int
  end_char : Int
deriving DecidableEq, Repr

/-- A persisted document record (`ingestion.py`, step 6); `created_at` and
`content_length` (attributes of the raw upload) are outside the
chunk-list interface of the model. -/
structure DocRecord where
  id : String
  filename : String
  user_email : String
  chunk_count : Nat
  faiss_start_index : Nat
  faiss_end_index : Nat
deriving DecidableEq, Repr

/-- The persistent state the ingestion pipeline mutates: the FAISS index
abstracted to its vector count, and the two MongoDB collections in
insertion order. -/
structure Store where
  totalVectors : Nat
  chunks : List ChunkRecord
  documents : List DocRecord
deriving DecidableEq, Repr

def emptyStore : Store := ⟨0, [], []⟩

/-- The dictionary returned by `ingest_document`. -/
structure IngestResult where
  document_id : String
  filename : String
  chunks_processed : Nat
  faiss_start_index : Nat
  faiss_end_index : Nat
deriving DecidableEq, Repr

/-- `ingest_document` (`app/services/ingestion.py`), given the output of
`chunk_document` for the uploaded content (the chunk list) and the
document id minted by MongoDB (`newDocId`). Embedding is the external
black box `embed_texts`, returning one vector per chunk text, so the
FAISS append grows `total_vectors` by the number of chunks. -/
def ingestDocument (st : Store) (newDocId filename userEmail : String)
    (chunks : List PyChunk) : Except String (Store × IngestResult) :=
  if chunks = [] then Except.error "Document produced no chunks"
  else
    Except.ok
      ({ totalVectors := st.totalVectors + chunks.length,
         chunks := st.chunks ++ chunks.enum.map (fun p =>
           { document_id := newDocId, user_email := userEmail, filename := filename,
             chunk_index := p.2.chunk_index,
             faiss_index := ((st.totalVectors + p.1 : Nat) : Int),
             text := p.2.text, start_char := p.2.start_char, end_char := p.2.end_char }),
         documents := st.documents ++ [
           { id := newDocId, filename := filename, user_email := userEmail,
             chunk_count := chunks.length,
             faiss_start_index := st.totalVectors,
             faiss_end_index := st.totalVectors + chunks.length }] },
       { document_id := newDocId, filename := filename,
         chunks_processed := chunks.length,
         faiss_start_index := st.totalVectors,
         faiss_end_index := st.totalVectors + chunks.length })

/-- Document deletion (`app/api/documents.py`): delete every chunk with
this `document_id`, then the document record; the vector index is not
compacted. -/
def deleteDocument (st : Store) (docId : String) : Store :=
  { totalVectors := st.totalVectors,
    chunks := st.chunks.filter (fun c => decide (c.document_id ≠ docId)),
    documents := st.documents.filter (fun d => decide (d.id ≠ docId)) }

/-- The owner filter of `get_chunks_by_faiss_indices`: Python adds
`user_email` to the Mongo query only when the argument is truthy
(not `None` and not the empty string). -/
def ownerOk (ue : Option String) (c : ChunkRecord) : Bool :=
  match ue with
  | none => true
  | some u => if u = "" then true else c.user_email == u

/-- `get_chunks_by_faiss_indices` (`ingestion.py`): Mongo `$in` query over
`faiss_index`, optionally owner-filtered, results in collection order. -/
def getChunksByFaissIndices (db : List ChunkRecord) (idxs : List Int)
    (ue : Option String) : List ChunkRecord :=
  db.filter (fun c => decide (c.faiss_index ∈ idxs) && ownerOk ue c)

/-- A retrieval result dictionary of `search_similar_chunks`. -/
structure SRes where
  text : List Char
  filename : String
  document_id : String
  chunk_index : Nat
  faiss_index : Int
  start_char : Int
  end_char : Int
  distance : ℚ
deriving DecidableEq, Repr

def buildSRes (c : ChunkRecord) (d : ℚ) : SRes :=
  ⟨c.text, c.filename, c.document_id, c.chunk_index, c.faiss_index,
   c.start_char, c.end_char, d⟩

/-- The FAISS answer rows with the absent marker `-1` removed
(`valid_indices` / `valid_distances`). -/
def validOut (out : List (Int × ℚ)) : List (Int × ℚ) :=
  out.filter (fun p => decide (p.1 ≠ -1))

/-- The dict comprehension `{chunk["faiss_index"]: chunk for chunk in chunks}`
read back at one key: the last record with that `faiss_index` wins. -/
def chunkMapLookup (chunks : List ChunkRecord) (i : Int) : Option ChunkRecord :=
  (chunks.filter (fun c => decide (c.faiss_index = i))).getLast?

/-- `search_similar_chunks` (`app/services/retrieval.py`), given the FAISS
answer `out` as `(slot, L2-distance)` rows for the embedded query: drop
absent slots, resolve metadata (owner-filtered), and re-join results in
the original answer order. -/
def searchSimilarChunks (db : List ChunkRecord) (out : List (Int × ℚ))
    (ue : Option String) : List SRes :=
  if validOut out = [] then []
  else
    (validOut out).filterMap (fun p =>
      (chunkMapLookup
        (getChunksByFaissIndices db ((validOut out).map Prod.fst) ue) p.1).map
        (fun c => buildSRes c p.2))

/-- Direct per-slot resolution against the owner-filtered collection (the
re-statement `searchSimilarChunks` is proved equal to). -/
def dbResolve (db : List ChunkRecord) (ue : Option String) (i : Int) : Option ChunkRecord :=
  chunkMapLookup (db.filter (ownerOk ue)) i

/-- Concrete three- and two-chunk documents for the slot-alignment
scenario (D1 then D2). -/
def d1chunks : List PyChunk := [⟨['a'], 0, 0, 1⟩, ⟨['b'], 1, 1, 2⟩, ⟨['c'], 2, 2, 3⟩]

def d2chunks : List PyChunk := [⟨['d'], 0, 0, 1⟩, ⟨['e'], 1, 1, 2⟩]

/-- Unpack a successful ingestion (used only to state concrete scenario
facts executably). -/
def ingOk (x : Except String (Store × IngestResult)) : Store × IngestResult :=
  match x with
  | Except.ok p => p
  | Except.error _ => (emptyStore, ⟨"", "", 0, 0, 0⟩)

/-- Scenario state after ingesting D1 (3 chunks) into an empty store. -/
def scenSt1 : Store := (ingOk (ingestDocument emptyStore "D1" "f1" "alice" d1chunks)).1

def scenRes1 : IngestResult := (ingOk (ingestDocument emptyStore "D1" "f1" "alice" d1chunks)).2

/-- Scenario state after then ingesting D2 (2 chunks). -/
def scenSt2 : Store := (ingOk (ingestDocument scenSt1 "D2" "f2" "alice" d2chunks)).1

def scenRes2 : IngestResult := (ingOk (ingestDocument scenSt1 "D2" "f2" "alice" d2chunks)).2

/-- Concrete records owned by two different users (for the no-owner-filter
facts). -/
def recA : ChunkRecord := ⟨"da", "a", "fa", 0, 0, ['a'], 0, 1⟩

def recB : ChunkRecord := ⟨"db", "b", "fb", 0, 1, ['b'], 0, 1⟩

/-- One trace message of the agent state (`role` is `"human"` or `"ai"`,
as produced by `run_agent`). -/
structure AgentMsg where
  role : String
  content : String
deriving DecidableEq, Repr

/-- The `AgentState` threaded through the three nodes (`agent_service.py`),
with the spec's sequential-pipeline reading of the graph (§9): each node
is a state transformer and the stages run in the fixed order
retrieve → reason → answer. -/
structure AgentSt where
  question : String
  retrieved_chunks : List SRes
  reasoning : String
  answer : String
  messages : List AgentMsg
deriving DecidableEq, Repr

/-- `RELEVANCE_THRESHOLD = 1.2` (L2 distance), as the reduced rational
`6/5` (given by its normal form so that kernel evaluation works). -/
def RELEVANCE_THRESHOLD : ℚ := ⟨6, 5, by decide, by decide⟩

/-- The apostrophe character (kept out of string literals). -/
def apos : String := (Char.ofNat 39).toString

/-- The fixed no-context answer of `answer_node`. -/
def noInfoAnswer : String :=
  "I couldn" ++ apos ++
    "t find any relevant information in the uploaded documents to answer your question."

/-- The fixed no-context reasoning of `reason_node`. -/
def noRelevantReasoning : String := "No relevant documents found to answer the question."

/-- The generation-failure fallback reasoning of `reason_node`. -/
def reasonFallback : String := "Retrieved context appears relevant based on semantic similarity."

/-- `retrieve_node`: retrieval results are filtered by the relevance
threshold and a human trace message summarising the counts is appended.
`searchRes` is the value returned by `search_similar_chunks`. -/
def retrieveNode (searchRes : List SRes) (st : AgentSt) : AgentSt :=
  if (searchRes.filter (fun c => decide (c.distance < RELEVANCE_THRESHOLD))) = [] then
    { st with
      retrieved_chunks := [],
      messages := st.messages ++ [⟨"human",
        "No relevant chunks found for: " ++ st.question ++ ". All " ++
          Nat.repr searchRes.length ++
          " retrieved chunks were below relevance threshold."⟩] }
  else
    { st with
      retrieved_chunks :=
        searchRes.filter (fun c => decide (c.distance < RELEVANCE_THRESHOLD)),
      messages := st.messages ++ [⟨"human",
        "Retrieved " ++
          Nat.repr (searchRes.filter
            (fun c => decide (c.distance < RELEVANCE_THRESHOLD))).length ++
          " relevant chunks (filtered from " ++ Nat.repr searchRes.length ++
          " total) for: " ++ st.question⟩] }

/-- `reason_node`: with no surviving chunks the fixed statement is recorded
(and a trace message appended) and the node still returns, so ANSWER runs
next; otherwise the generation outcome `genR` (the external provider call
in its `try`/`except`) decides the reasoning, failure falling back to the
fixed statement. -/
def reasonNode (genR : Except String String) (st : AgentSt) : AgentSt :=
  if st.retrieved_chunks = [] then
    { st with
      reasoning := noRelevantReasoning,
      messages := st.messages ++ [⟨"ai", noRelevantReasoning⟩] }
  else
    { st with
      reasoning := match genR with
        | Except.ok r => r
        | Except.error _ => reasonFallback,
      messages := st.messages ++ [⟨"ai", "Reasoning: " ++ (match genR with
        | Except.ok r => r
        | Except.error _ => reasonFallback)⟩] }

/-- `answer_node`: with no surviving chunks the fixed no-context answer is
recorded; otherwise the generation outcome `genA` decides the answer, and
on failure the answer text itself becomes the error description. -/
def answerNode (genA : Except String String) (st : AgentSt) : AgentSt :=
  if st.retrieved_chunks = [] then
    { st with
      answer := noInfoAnswer,
      messages := st.messages ++ [⟨"ai", noInfoAnswer⟩] }
  else
    { st with
      answer := match genA with
        | Except.ok a => a
        | Except.error e => "Error generating answer: " ++ e,
      messages := st.messages ++ [⟨"ai", (match genA with
        | Except.ok a => a
        | Except.error e => "Error generating answer: " ++ e)⟩] }

def initialAgentState (q : String) : AgentSt :=
  { question := q, retrieved_chunks := [], reasoning := "", answer := "", messages := [] }

/-- `run_agent`: fresh state, then the fixed sequential pipeline
retrieve → reason → answer. The returned dictionary exposes `answer`,
`reasoning`, `sources = retrieved_chunks` and the message trace of the
final state. -/
def runAgent (q : String) (searchRes : List SRes)
    (genR genA : Except String String) : AgentSt :=
  answerNode genA (reasonNode genR (retrieveNode searchRes (initialAgentState q)))

/-- A retrieval result whose distance 2 is at or above the 1.2 threshold. -/
def cexChunk : SRes := ⟨['x'], "f.txt", "doc1", 0, 0, 0, 1, 2⟩

/-- A retrieval result whose distance 1 is below the 1.2 threshold. -/
def lowChunk : SRes := ⟨['y'], "f.txt", "doc1", 0, 0, 0, 1, 1⟩

/-- The citation relevance score (`build_citation` in `app/api/query.py`
and `build_search_result` in `app/api/search.py`):
`clamp(e^(-distance/10), 0, 1)`, stated over the reals. -/
noncomputable def relevance_score (d : ℝ) : ℝ := min 1 (max 0 (Real.exp (-d / 10)))


/-- The explicit `for ... else` marker search equals a `findSome?` over the
marker list. -/
theorem forBoundaries_eq_findSome (t : List Char) (s e : Int) :
    ∀ L : List (List Char),
      forBoundaries t s e L =
        L.findSome? (fun m =>
          if pyRfind t m s e = -1 then none else some (pyRfind t m s e + m.length)) := by
  intro L
  induction L with
  | nil => rfl
  | cons b rest ih =>
    simp only [forBoundaries, List.findSome?_cons]
    by_cases hp : pyRfind t b s e = -1
    · simp [hp, ih]
    · simp [hp]

/-- C4 (amended): for every window whose tentative end falls before the end
of the text, the cut point is chosen by searching backward from the
tentative end for the last occurrence of each marker, in the priority
order `'. '`, `'! '`, `'? '`, paragraph break, newline (first marker
present wins), falling back to the last space strictly after the window
start, and cutting at the raw window boundary only when neither is found. -/
theorem chunk_boundary_priority_C4 (t : List Char) (cs : Nat) (start : Int)
    (h : start + (cs : Int) < t.length) :
    stepEnd t cs start = amendedCut t start (start + cs) := by
  unfold stepEnd
  rw [if_pos h]
  unfold computeEnd amendedCut
  rw [← forBoundaries_eq_findSome]
  cases hf : forBoundaries t start (start + (cs : Int)) codeBoundaries with
  | none =>
    by_cases hc : pyRfind t [' '] start (start + (cs : Int)) ≠ -1 ∧
        start < pyRfind t [' '] start (start + (cs : Int))
    · simp [Option.orElse, hc]
    · simp [Option.orElse, hc]
  | some e => simp [Option.orElse]

/-- Witness for C4: the amended rule evaluated on the concrete window
`[0, 10)` of `exC4`. -/
theorem chunk_boundary_priority_C4_witness :
    stepEnd exC4 10 0 = amendedCut exC4 0 (0 + (10 : Nat)) :=
  chunk_boundary_priority_C4 exC4 10 0 (by decide)

/-- Counterexample for C4 as stated: on the window `[0, 10)` of `exC4` the
code cuts after the `'. '` at position 1 (end 3), while the spec's claimed
priority (paragraph break first) would cut after the `'\n\n'` at position 4
(end 6). -/
theorem chunk_boundary_order_cex_C4 :
    computeEnd exC4 0 10 = 3 ∧ specComputeEnd exC4 0 10 = 6 ∧
    computeEnd exC4 0 10 ≠ specComputeEnd exC4 0 10 := by decide

/-- C5: on `failC5` with `chunk_size = 10`, `chunk_overlap = 5` the loop
of `chunk_text` never terminates: for every fuel bound the loop is still
running, because the state (cursor 4, no chunks emitted) is a fixed point
of the loop body. -/
theorem chunk_nontermination_C5 : ∀ fuel : Nat, chunkText failC5 10 5 fuel = none := by
  have hstep4 : chunkStep failC5 10 5 4 [] = (4, []) := by decide
  have hstep0 : chunkStep failC5 10 5 0 [] = (4, []) := by decide
  have hlen0 : ¬ ((failC5.length : Int) ≤ 0) := by decide
  have hlen4 : ¬ ((failC5.length : Int) ≤ 4) := by decide
  have hnb : ¬ (pyStrip failC5 = []) := by decide
  have aux : ∀ f, chunkLoop failC5 10 5 f 4 [] = none := by
    intro f
    induction f with
    | zero => simp only [chunkLoop, if_neg hlen4]
    | succ n ih =>
      simp only [chunkLoop, if_neg hlen4, hstep4]
      exact ih
  intro fuel
  cases fuel with
  | zero => simp only [chunkText, if_neg hnb, chunkLoop, if_neg hlen0]
  | succ n =>
    simp only [chunkText, if_neg hnb, chunkLoop, if_neg hlen0, hstep0]
    exact aux n

/-- The threshold normal form is the rational `6/5 = 1.2`. -/
theorem RELEVANCE_THRESHOLD_eq : RELEVANCE_THRESHOLD = 6/5 := by
  unfold RELEVANCE_THRESHOLD
  rw [Rat.mk'_eq_divInt]
  norm_num [Rat.divInt_eq_div]

/-- The adjusted index never exceeds the length. -/
theorem pyAdjIndex_le (n : Nat) (i : Int) : pyAdjIndex n i ≤ n := by
  unfold pyAdjIndex
  split <;> omega

/-- For an in-range non-negative index the adjustment is the identity. -/
theorem pyAdjIndex_of_nonneg (n : Nat) (i : Int) (h0 : 0 ≤ i) (hn : i ≤ (n : Int)) :
    (pyAdjIndex n i : Int) = i := by
  unfold pyAdjIndex
  split <;> omega

/-- For a negative index the adjustment counts from the end. -/
theorem pyAdjIndex_of_neg (n : Nat) (i : Int) (h0 : i < 0) :
    pyAdjIndex n i = ((n : Int) + i).toNat := by
  unfold pyAdjIndex
  rw [if_pos h0]

/-- `rfind` either fails or returns an in-range position. -/
theorem pyRfind_cases (t sub : List Char) (a b : Int) :
    pyRfind t sub a b = -1 ∨
      ∃ i : Nat, pyRfind t sub a b = (i : Int) ∧
        pyAdjIndex t.length a ≤ i ∧ i + sub.length ≤ pyAdjIndex t.length b := by
  unfold pyRfind
  cases hL : ((List.range (t.length + 1)).filter
      (fun i => decide (pyAdjIndex t.length a ≤ i) &&
        decide (i + sub.length ≤ pyAdjIndex t.length b) && subAt t sub i)).getLast? with
  | none => left; rfl
  | some i =>
    right
    refine ⟨i, rfl, ?_, ?_⟩ <;>
    · have hmem := List.mem_of_mem_getLast? hL
      have hcond := (List.mem_filter.mp hmem).2
      simp only [Bool.and_eq_true, decide_eq_true_eq] at hcond
      omega

/-- `rfind` of a non-empty pattern over an empty adjusted range fails. -/
theorem pyRfind_neg_of_ge (t sub : List Char) (a b : Int) (hsub : sub ≠ [])
    (h : pyAdjIndex t.length b ≤ pyAdjIndex t.length a) : pyRfind t sub a b = -1 := by
  rcases pyRfind_cases t sub a b with h1 | ⟨i, _, hlo, hhi⟩
  · exact h1
  · exfalso
    have hz : sub.length = 0 := by omega
    exact hsub (List.length_eq_zero.mp hz)

/-- A slice over an empty adjusted range is empty. -/
theorem pySlice_eq_nil_of_ge (t : List Char) (a b : Int)
    (h : pyAdjIndex t.length b ≤ pyAdjIndex t.length a) : pySlice t a b = [] := by
  unfold pySlice
  apply List.drop_eq_nil_of_le
  have : (t.take (pyAdjIndex t.length b)).length ≤ pyAdjIndex t.length b := by
    simp [List.length_take]
  omega

/-- The full slice `t[0:len]` is the whole text. -/
theorem pySlice_zero_len (t : List Char) : pySlice t 0 (t.length : Int) = t := by
  have h1 : pyAdjIndex t.length 0 = 0 := by unfold pyAdjIndex; simp
  have h2 : pyAdjIndex t.length (t.length : Int) = t.length := by
    unfold pyAdjIndex
    split <;> omega
  unfold pySlice
  rw [h1, h2]
  simp

/-- Striping the empty list gives the empty list. -/
theorem pyStrip_nil : pyStrip [] = [] := rfl

/-- If the marker search succeeds, the cut comes from some marker of the
list found by `rfind`. -/
theorem forBoundaries_some (t : List Char) (s e : Int) :
    ∀ (L : List (List Char)) (x : Int), forBoundaries t s e L = some x →
      ∃ b ∈ L, pyRfind t b s e ≠ -1 ∧ x = pyRfind t b s e + b.length := by
  intro L
  induction L with
  | nil => intro x h; simp [forBoundaries] at h
  | cons b rest ih =>
    intro x h
    simp only [forBoundaries] at h
    by_cases hp : pyRfind t b s e = -1
    · rw [if_pos hp] at h
      obtain ⟨b', hmem, hne, hx⟩ := ih x h
      exact ⟨b', List.mem_cons_of_mem _ hmem, hne, hx⟩
    · rw [if_neg hp] at h
      exact ⟨b, List.mem_cons_self _ _, hp, (Option.some.injEq _ _ ▸ h).symm⟩

/-- If every marker fails the search returns `none`. -/
theorem forBoundaries_none (t : List Char) (s e : Int) :
    ∀ L : List (List Char), (∀ b ∈ L, pyRfind t b s e = -1) → forBoundaries t s e L = none := by
  intro L
  induction L with
  | nil => intro _; rfl
  | cons b rest ih =>
    intro h
    simp only [forBoundaries]
    rw [if_pos (h b (List.mem_cons_self _ _))]
    exact ih (fun b' hb' => h b' (List.mem_cons_of_mem _ hb'))

/-- Bounds on the window end: it lies strictly beyond the cursor, within
the text, and is positive. -/
theorem stepEnd_bounds (t : List Char) (cs : Nat) (start : Int)
    (hcs : 1 ≤ cs) (hlen1 : 1 ≤ t.length)
    (h0 : 0 ≤ start ∨ (2 ≤ (cs : Int) ∧ 2 - (cs : Int) ≤ start))
    (hlt : start < (t.length : Int)) :
    start < stepEnd t cs start ∧ stepEnd t cs start ≤ (t.length : Int) ∧
      1 ≤ stepEnd t cs start := by
  have hmarks : ∀ b ∈ codeBoundaries, 1 ≤ b.length := by decide
  unfold stepEnd
  by_cases he : start + (cs : Int) < (t.length : Int)
  · rw [if_pos he]
    unfold computeEnd
    cases hf : forBoundaries t start (start + (cs : Int)) codeBoundaries with
    | some e =>
      obtain ⟨b, hbmem, hbne, hbe⟩ := forBoundaries_some t start _ codeBoundaries e hf
      rcases pyRfind_cases t b start (start + (cs : Int)) with hneg | ⟨i, hieq, hlo, hhi⟩
      · exact absurd hneg hbne
      have hb1 : 1 ≤ b.length := hmarks b hbmem
      have hhile : pyAdjIndex t.length (start + (cs : Int)) ≤ t.length := pyAdjIndex_le _ _
      rw [hieq] at hbe
      rw [Option.getD_some]
      refine ⟨?_, by omega, by omega⟩
      by_cases hpos : 0 ≤ start
      · have hadj : (pyAdjIndex t.length start : Int) = start :=
          pyAdjIndex_of_nonneg _ _ hpos (le_of_lt hlt)
        omega
      · omega
    | none =>
      rw [Option.getD_none]
      by_cases hsp : pyRfind t [' '] start (start + (cs : Int)) ≠ -1 ∧
          start < pyRfind t [' '] start (start + (cs : Int))
      · rw [if_pos hsp]
        rcases pyRfind_cases t [' '] start (start + (cs : Int)) with hneg | ⟨i, hieq, hlo, hhi⟩
        · exact absurd hneg hsp.1
        have hsp2 := hsp.2
        have hl1 : ([' '] : List Char).length = 1 := rfl
        rw [hl1] at hhi
        have hhile : pyAdjIndex t.length (start + (cs : Int)) ≤ t.length := pyAdjIndex_le _ _
        refine ⟨by omega, by omega, by omega⟩
      · rw [if_neg hsp]
        refine ⟨by omega, by omega, ?_⟩
        rcases h0 with hpos | ⟨h2, hge⟩ <;> omega
  · rw [if_neg he]
    exact ⟨hlt, le_refl _, by omega⟩

/-- When the cursor is negative and the text is at least one window long,
the window's adjusted search and slice ranges are empty (Python's
negative-index adjustment), so the raw cut is taken and no chunk is
appended. -/
theorem no_append_of_neg (t : List Char) (cs : Nat) (start : Int)
    (_h2 : 2 ≤ (cs : Int)) (hge : 2 - (cs : Int) ≤ start) (hneg : start < 0)
    (hclen : (cs : Int) ≤ (t.length : Int)) :
    pyStrip (pySlice t start (stepEnd t cs start)) = [] := by
  have he0lt : start + (cs : Int) < (t.length : Int) := by omega
  have he0pos : (0 : Int) ≤ start + (cs : Int) := by omega
  have hlo : pyAdjIndex t.length start = ((t.length : Int) + start).toNat :=
    pyAdjIndex_of_neg _ _ hneg
  have hhile : pyAdjIndex t.length (start + (cs : Int)) ≤ pyAdjIndex t.length start := by
    rw [hlo]
    unfold pyAdjIndex
    rw [if_neg (not_lt.mpr he0pos)]
    have h1 : min (start + (cs : Int)).toNat t.length ≤ (start + (cs : Int)).toNat :=
      min_le_left _ _
    omega
  have hmark : ∀ b ∈ codeBoundaries, pyRfind t b start (start + (cs : Int)) = -1 := by
    intro b hb
    have hbne : b ≠ [] := by
      have hne : ∀ b ∈ codeBoundaries, b ≠ [] := by decide
      exact hne b hb
    exact pyRfind_neg_of_ge t b _ _ hbne hhile
  have hsp : pyRfind t [' '] start (start + (cs : Int)) = -1 :=
    pyRfind_neg_of_ge t [' '] _ _ (by decide) hhile
  have hc : ¬(pyRfind t [' '] start (start + (cs : Int)) ≠ -1 ∧
      start < pyRfind t [' '] start (start + (cs : Int))) := fun hcon => hcon.1 hsp
  have hstep : stepEnd t cs start = start + (cs : Int) := by
    unfold stepEnd
    rw [if_pos he0lt]
    unfold computeEnd
    rw [forBoundaries_none t _ _ codeBoundaries hmark, Option.getD_none, if_neg hc]
  rw [hstep, pySlice_eq_nil_of_ge t _ _ hhile, pyStrip_nil]

/-- The next cursor is either the window end or the window end minus the
overlap. -/
theorem nextStart_cases (ov : Nat) (e : Int) (acc : List PyChunk) :
    nextStart ov e acc = e ∨ nextStart ov e acc = e - (ov : Int) := by
  unfold nextStart
  cases acc.getLast? with
  | none => right; rfl
  | some c =>
    show (if e - (ov : Int) ≤ c.start_char then e else e - (ov : Int)) = e ∨
      (if e - (ov : Int) ≤ c.start_char then e else e - (ov : Int)) = e - (ov : Int)
    by_cases h : e - (ov : Int) ≤ c.start_char
    · left; rw [if_pos h]
    · right; rw [if_neg h]

/-- The clamp keeps the cursor strictly beyond the last emitted start. -/
theorem nextStart_gt_last (ov : Nat) (e : Int) (acc : List PyChunk) (c : PyChunk)
    (hc : acc.getLast? = some c) (hce : c.start_char < e) :
    c.start_char < nextStart ov e acc := by
  unfold nextStart
  rw [hc]
  show c.start_char < if e - (ov : Int) ≤ c.start_char then e else e - (ov : Int)
  by_cases h : e - (ov : Int) ≤ c.start_char
  · rw [if_pos h]; exact hce
  · rw [if_neg h]; omega

/-- With a non-negative last emitted start and non-negative window end the
next cursor is non-negative. -/
theorem nextStart_nonneg (ov : Nat) (e : Int) (acc : List PyChunk) (c : PyChunk)
    (hc : acc.getLast? = some c) (h0c : 0 ≤ c.start_char) (h0e : 0 ≤ e) :
    0 ≤ nextStart ov e acc := by
  unfold nextStart
  rw [hc]
  show 0 ≤ if e - (ov : Int) ≤ c.start_char then e else e - (ov : Int)
  by_cases h : e - (ov : Int) ≤ c.start_char
  · rw [if_pos h]; exact h0e
  · rw [if_neg h]; omega

/-- One loop iteration of `chunk_text` preserves the invariant. -/
theorem chunkStep_preserves (t : List Char) (cs ov : Nat) (hcs : 1 ≤ cs) (hov : ov < cs)
    (hnb : pyStrip t ≠ []) (start : Int) (acc : List PyChunk)
    (hlt : start < (t.length : Int)) (hinv : chunkInv t cs start acc) :
    chunkInv t cs (chunkStep t cs ov start acc).1 (chunkStep t cs ov start acc).2 := by
  obtain ⟨h0, helem, hidx, hchain, hlast, h4⟩ := hinv
  have hlen1 : 1 ≤ t.length := by
    rcases t with _ | ⟨c, t'⟩
    · exact absurd pyStrip_nil hnb
    · simp
  obtain ⟨hse1, hse2, hse3⟩ := stepEnd_bounds t cs start hcs hlen1 h0 hlt
  have hfst : (chunkStep t cs ov start acc).1 =
      nextStart ov (stepEnd t cs start) (chunkAppend t start (stepEnd t cs start) acc) := rfl
  have hsnd : (chunkStep t cs ov start acc).2 =
      chunkAppend t start (stepEnd t cs start) acc := rfl
  rw [hfst, hsnd]
  have happos : pyStrip (pySlice t start (stepEnd t cs start)) ≠ [] → 0 ≤ start := by
    intro hne
    by_contra hneg
    push_neg at hneg
    by_cases hlc : (t.length : Int) < (cs : Int)
    · exact absurd (h4 hlc).1 (not_le.mpr hneg)
    · push_neg at hlc
      rcases h0 with hpos | ⟨h2, hge⟩
      · omega
      · exact hne (no_append_of_neg t cs start h2 hge hneg hlc)
  by_cases hseg : pyStrip (pySlice t start (stepEnd t cs start)) = []
  · -- skipped window: chunk list unchanged
    have hacc : chunkAppend t start (stepEnd t cs start) acc = acc := by
      unfold chunkAppend
      rw [if_pos hseg]
    rw [hacc]
    refine ⟨?_, helem, hidx, hchain, ?_, ?_⟩
    · rcases nextStart_cases ov (stepEnd t cs start) acc with hn | hn <;> rw [hn] <;> omega
    · intro c hc
      exact nextStart_gt_last ov _ acc c hc (lt_trans (hlast c hc) hse1)
    · intro hlc
      obtain ⟨hst0, hacc0⟩ := h4 hlc
      have heqlen : stepEnd t cs start = (t.length : Int) := by
        unfold stepEnd
        rw [if_neg (by omega)]
      by_cases hacce : acc = []
      · exfalso
        apply hnb
        have hzero : start = 0 := hacc0 hacce
        rw [heqlen, hzero, pySlice_zero_len] at hseg
        exact hseg
      · obtain ⟨c, hc⟩ := Option.ne_none_iff_exists'.mp
          (fun hnone => hacce (List.getLast?_eq_none_iff.mp hnone))
        refine ⟨nextStart_nonneg ov _ acc c hc ((helem c (List.mem_of_mem_getLast? hc)).1)
          (by omega), fun habs => absurd habs hacce⟩
  · -- appended window
    have hstart0 : 0 ≤ start := happos hseg
    have hacc : chunkAppend t start (stepEnd t cs start) acc =
        acc ++ [⟨pyStrip (pySlice t start (stepEnd t cs start)), acc.length, start,
          stepEnd t cs start⟩] := by
      unfold chunkAppend
      rw [if_neg hseg]
    rw [hacc]
    have hglast : (acc ++ [(⟨pyStrip (pySlice t start (stepEnd t cs start)), acc.length, start,
        stepEnd t cs start⟩ : PyChunk)]).getLast? =
        some ⟨pyStrip (pySlice t start (stepEnd t cs start)), acc.length, start,
          stepEnd t cs start⟩ := List.getLast?_concat _
    refine ⟨?_, ?_, ?_, ?_, ?_, ?_⟩
    · rcases nextStart_cases ov (stepEnd t cs start)
        (acc ++ [⟨pyStrip (pySlice t start (stepEnd t cs start)), acc.length, start,
          stepEnd t cs start⟩]) with hn | hn <;> rw [hn] <;> omega
    · intro c hc
      rcases List.mem_append.mp hc with hcl | hcr
      · exact helem c hcl
      · have hceq : c = ⟨pyStrip (pySlice t start (stepEnd t cs start)), acc.length, start,
            stepEnd t cs start⟩ := List.mem_singleton.mp hcr
      
        rw [hceq]
        exact ⟨hstart0, hse1, hse2, hseg⟩
    · rw [List.map_append, hidx]
      simp [List.range_succ]
    · rw [List.chain'_append]
      refine ⟨hchain, List.chain'_singleton _, ?_⟩
      intro x hx y hy
      have hyeq : (⟨pyStrip (pySlice t start (stepEnd t cs start)), acc.length, start,
          stepEnd t cs start⟩ : PyChunk) = y := by
        simpa using hy
      rw [← hyeq]
      exact hlast x hx
    · intro c hc
      rw [hglast] at hc
      have hceq : c = ⟨pyStrip (pySlice t start (stepEnd t cs start)), acc.length, start,
          stepEnd t cs start⟩ := Option.some.inj hc.symm
      rw [hceq]
      exact nextStart_gt_last ov _ _ _ hglast hse1
    · intro hlc
      refine ⟨nextStart_nonneg ov _ _ _ hglast hstart0 (by omega), fun habs => ?_⟩
      exact absurd habs (by simp)

/-- If the loop terminates, the result satisfies the invariant-derived
properties. -/
theorem chunkLoop_sound (t : List Char) (cs ov : Nat) (hcs : 1 ≤ cs) (hov : ov < cs)
    (hnb : pyStrip t ≠ []) :
    ∀ (fuel : Nat) (start : Int) (acc res : List PyChunk),
      chunkLoop t cs ov fuel start acc = some res → chunkInv t cs start acc →
      (∀ c ∈ res, chunkOk t c) ∧
        res.map PyChunk.chunk_index = List.range res.length ∧
        List.Chain' (fun a b => a.start_char < b.start_char) res := by
  intro fuel
  induction fuel with
  | zero =>
    intro start acc res h hinv
    simp only [chunkLoop] at h
    by_cases hle : (t.length : Int) ≤ start
    · rw [if_pos hle] at h
      obtain rfl : acc = res := Option.some.inj h
      exact ⟨hinv.2.1, hinv.2.2.1, hinv.2.2.2.1⟩
    · rw [if_neg hle] at h
      exact absurd h (by simp)
  | succ n ih =>
    intro start acc res h hinv
    simp only [chunkLoop] at h
    by_cases hle : (t.length : Int) ≤ start
    · rw [if_pos hle] at h
      obtain rfl : acc = res := Option.some.inj h
      exact ⟨hinv.2.1, hinv.2.2.1, hinv.2.2.2.1⟩
    · rw [if_neg hle] at h
      exact ih _ _ _ h
        (chunkStep_preserves t cs ov hcs hov hnb start acc (by omega) hinv)

/-- C6 (amended): whenever `chunk_text` terminates (for any `chunk_size ≥ 1`
and `0 ≤ overlap < chunk_size`), every returned chunk satisfies
`0 ≤ start_char < end_char ≤ len(text)` with a non-empty trimmed segment,
the start offsets are strictly increasing in list order, and `chunk_index`
is strictly increasing from 0; the union of the ranges need not cover
`[0, len)` because windows whose segment trims to empty are discarded. -/
theorem chunk_invariants_C6 (t : List Char) (cs ov fuel : Nat) (res : List PyChunk)
    (hcs : 1 ≤ cs) (hov : ov < cs) (hrun : chunkText t cs ov fuel = some res) :
    (∀ c ∈ res, 0 ≤ c.start_char ∧ c.start_char < c.end_char ∧
      c.end_char ≤ (t.length : Int) ∧ c.text ≠ []) ∧
    res.map PyChunk.chunk_index = List.range res.length ∧
    List.Chain' (fun a b => a.start_char < b.start_char) res := by
  unfold chunkText at hrun
  by_cases hnb : pyStrip t = []
  · rw [if_pos hnb] at hrun
    obtain rfl : ([] : List PyChunk) = res := Option.some.inj hrun
    exact ⟨by simp, by simp, by simp⟩
  · rw [if_neg hnb] at hrun
    have hinit : chunkInv t cs 0 [] := by
      refine ⟨Or.inl le_rfl, by simp, by simp, by simp, ?_, fun _ => ⟨le_rfl, fun _ => rfl⟩⟩
      intro c hc
      simp at hc
    exact chunkLoop_sound t cs ov hcs hov hnb fuel 0 [] res hrun hinit

/-- Witness for C6: the amended properties hold on the concrete run
`chunk_text("ab", 2, 0)`. -/
theorem chunk_invariants_C6_witness :
    (∀ c ∈ [(⟨['a', 'b'], 0, 0, 2⟩ : PyChunk)], 0 ≤ c.start_char ∧
      c.start_char < c.end_char ∧ c.end_char ≤ (("ab".toList).length : Int) ∧ c.text ≠ []) ∧
    List.map PyChunk.chunk_index [(⟨['a', 'b'], 0, 0, 2⟩ : PyChunk)] =
      List.range (List.length [(⟨['a', 'b'], 0, 0, 2⟩ : PyChunk)]) ∧
    List.Chain' (fun a b => a.start_char < b.start_char)
      [(⟨['a', 'b'], 0, 0, 2⟩ : PyChunk)] :=
  chunk_invariants_C6 "ab".toList 2 0 10 [⟨['a', 'b'], 0, 0, 2⟩]
    (by decide) (by decide) (by decide)

/-- Counterexample for C6 as stated: on `"ab   "` with `chunk_size = 2`,
`overlap = 0` the only returned chunk is `[0, 2)`, so position 2 of the
five-character text is covered by no chunk — the union of the ranges does
not cover `[0, len)`. -/
theorem chunk_cover_cex_C6 :
    chunkText exC6 2 0 10 = some [⟨['a', 'b'], 0, 0, 2⟩] ∧
    (2 : Int) < (exC6.length : Int) ∧
    ∀ c ∈ [(⟨['a', 'b'], 0, 0, 2⟩ : PyChunk)],
      ¬(c.start_char ≤ 2 ∧ (2 : Int) < c.end_char) := by
  refine ⟨by decide, by decide, ?_⟩
  intro c hc
  have hceq : c = ⟨['a', 'b'], 0, 0, 2⟩ := List.mem_singleton.mp hc
  rw [hceq]
  decide

/-- C1: for every successful ingestion of a chunking that yielded `n ≥ 1`
chunks, the recorded slot range is `[total_count, total_count + n)` for
the pre-append `total_count`, chunk `i` is bound to slot
`total_count + i`, and the metadata records are written in that same
positional order; concretely, D1 (3 chunks) then D2 (2 chunks) into an
empty store get slots `[0,3)` and `[3,5)`, and after deleting D1 every
surviving record belongs to D2 and sits at a slot `≥ 3`, so no slot of
`[0,3)` resolves to D2's metadata. -/
theorem ingest_slot_alignment_C1 (st : Store) (docId fn owner : String)
    (chunks : List PyChunk) (hne : chunks ≠ []) :
    (∃ st' res, ingestDocument st docId fn owner chunks = Except.ok (st', res) ∧
      res.faiss_start_index = st.totalVectors ∧
      res.faiss_end_index = st.totalVectors + chunks.length ∧
      res.chunks_processed = chunks.length ∧
      st'.chunks.length = st.chunks.length + chunks.length ∧
      (∀ i ci, chunks[i]? = some ci →
        ∃ rec, st'.chunks[st.chunks.length + i]? = some rec ∧
          rec.faiss_index = ((st.totalVectors + i : Nat) : Int) ∧
          rec.document_id = docId ∧ rec.user_email = owner ∧
          rec.chunk_index = ci.chunk_index ∧ rec.text = ci.text)) ∧
    (scenRes1.faiss_start_index = 0 ∧ scenRes1.faiss_end_index = 3 ∧
     scenRes2.faiss_start_index = 3 ∧ scenRes2.faiss_end_index = 5 ∧
     ∀ c ∈ (deleteDocument scenSt2 "D1").chunks,
       c.document_id = "D2" ∧ 3 ≤ c.faiss_index) := by
  constructor
  · unfold ingestDocument
    rw [if_neg hne]
    refine ⟨_, _, rfl, rfl, rfl, rfl, ?_, ?_⟩
    · simp
    · intro i ci hci
      rw [List.getElem?_append_right (by omega)]
      rw [Nat.add_sub_cancel_left]
      rw [List.getElem?_map, List.getElem?_enum, hci]
      exact ⟨_, rfl, rfl, rfl, rfl, rfl, rfl⟩
  · refine ⟨by decide, by decide, by decide, by decide, ?_⟩
    intro c hc
    have hall : ∀ c ∈ (deleteDocument scenSt2 "D1").chunks,
        c.document_id = "D2" ∧ 3 ≤ c.faiss_index := by decide
    exact hall c hc

/-- Witness for C1: the general part instantiated at the empty store and
the concrete 3-chunk document D1. -/
theorem ingest_slot_alignment_C1_witness :
    ∃ st' res, ingestDocument emptyStore "D1" "f1" "alice" d1chunks =
        Except.ok (st', res) ∧
      res.faiss_start_index = emptyStore.totalVectors ∧
      res.faiss_end_index = emptyStore.totalVectors + d1chunks.length ∧
      res.chunks_processed = d1chunks.length ∧
      st'.chunks.length = emptyStore.chunks.length + d1chunks.length ∧
      (∀ i ci, d1chunks[i]? = some ci →
        ∃ rec, st'.chunks[emptyStore.chunks.length + i]? = some rec ∧
          rec.faiss_index = ((emptyStore.totalVectors + i : Nat) : Int) ∧
          rec.document_id = "D1" ∧ rec.user_email = "alice" ∧
          rec.chunk_index = ci.chunk_index ∧ rec.text = ci.text) :=
  (ingest_slot_alignment_C1 emptyStore "D1" "f1" "alice" d1chunks (by decide)).1

/-- C2: with a non-empty owner id, every result of `search_similar_chunks`
comes from a metadata record whose `user_email` equals that owner —
cross-owner records never appear, whatever the index's answer (including
when the nearest slot belongs to another owner). -/
theorem retrieval_owner_filter_C2 (db : List ChunkRecord) (out : List (Int × ℚ))
    (u : String) (hu : u ≠ "") :
    ∀ r ∈ searchSimilarChunks db out (some u),
      ∃ c ∈ db, c.user_email = u ∧ c.faiss_index = r.faiss_index ∧
        c.text = r.text ∧ c.document_id = r.document_id ∧
        c.filename = r.filename ∧ c.chunk_index = r.chunk_index := by
  intro r hr
  unfold searchSimilarChunks at hr
  by_cases hv : validOut out = []
  · rw [if_pos hv] at hr
    simp at hr
  · rw [if_neg hv] at hr
    obtain ⟨p, hp, hmap⟩ := List.mem_filterMap.mp hr
    obtain ⟨c, hc, hbuild⟩ := Option.map_eq_some'.mp hmap
    have hcmem := List.mem_of_mem_getLast? hc
    have hc2 := List.mem_of_mem_filter hcmem
    unfold getChunksByFaissIndices at hc2
    have hc3 := List.mem_filter.mp hc2
    have hcond := hc3.2
    simp only [Bool.and_eq_true] at hcond
    have howner : c.user_email = u := by
      have h2 := hcond.2
      simp only [ownerOk, if_neg hu] at h2
      exact beq_iff_eq.mp h2
    refine ⟨c, hc3.1, howner, ?_, ?_, ?_, ?_, ?_⟩ <;> rw [← hbuild] <;> rfl

/-- Witness for C2: owner `"a"` querying a store holding both owners'
chunks; the concrete result record resolves to a record owned by `"a"`. -/
theorem retrieval_owner_filter_C2_witness :
    ∃ c ∈ [recA, recB], c.user_email = "a" ∧
      c.faiss_index = (buildSRes recA 2).faiss_index ∧
      c.text = (buildSRes recA 2).text ∧
      c.document_id = (buildSRes recA 2).document_id ∧
      c.filename = (buildSRes recA 2).filename ∧
      c.chunk_index = (buildSRes recA 2).chunk_index :=
  retrieval_owner_filter_C2 [recA, recB] [((0 : Int), (2 : ℚ))] "a" (by decide)
    (buildSRes recA 2) (by decide)

/-- Filtering first is harmless when the function is `none` outside the
filter. -/
theorem filterMap_eq_filterMap_filter {α β : Type} (p : α → Bool) (f : α → Option β)
    (h : ∀ a, p a = false → f a = none) :
    ∀ l : List α, (l.filter p).filterMap f = l.filterMap f := by
  intro l
  induction l with
  | nil => rfl
  | cons a l ih =>
    by_cases hp : p a = true
    · rw [List.filter_cons_of_pos hp]
      simp only [List.filterMap_cons]
      cases f a <;> simp [ih]
    · have hpf : p a = false := by revert hp; cases p a <;> simp
      rw [List.filter_cons_of_neg (by simp [hpf])]
      simp only [List.filterMap_cons, h a hpf]
      exact ih

/-- `filterMap` respects pointwise agreement on the list. -/
theorem filterMap_congr_mem {α β : Type} (f g : α → Option β) :
    ∀ l : List α, (∀ a ∈ l, f a = g a) → l.filterMap f = l.filterMap g := by
  intro l
  induction l with
  | nil => intro _; rfl
  | cons a l ih =>
    intro h
    simp only [List.filterMap_cons, h a (List.mem_cons_self _ _)]
    cases g a <;> simp [ih (fun x hx => h x (List.mem_cons_of_mem _ hx))]

/-- A `filterMap` whose values project back to their sources yields a
sublist under that projection. -/
theorem map_filterMap_sublist {α β : Type} (g : α → Option β) (proj : β → α)
    (h : ∀ a b, g a = some b → proj b = a) :
    ∀ l : List α, (List.map proj (l.filterMap g)).Sublist l := by
  intro l
  induction l with
  | nil => simp
  | cons a l ih =>
    cases hg : g a with
    | none =>
      simp only [List.filterMap_cons, hg]
      exact ih.cons a
    | some b =>
      simp only [List.filterMap_cons, hg, List.map_cons]
      rw [h a b hg]
      exact ih.cons₂ a

/-- C7: the retrieval result is exactly the index's answer rows with absent
slots (`-1`) and unresolvable (orphaned or cross-owner) slots dropped,
each surviving row resolved against the owner-filtered metadata, kept in
the index's original order — and the `(slot, distance)` projection of the
result is a sublist of the raw answer; no relevance threshold is applied
inside the engine. -/
theorem retrieval_order_C7 (db : List ChunkRecord) (out : List (Int × ℚ))
    (ue : Option String) :
    searchSimilarChunks db out ue =
      out.filterMap (fun p =>
        if p.1 = -1 then none
        else (dbResolve db ue p.1).map (fun c => buildSRes c p.2)) ∧
    (List.map (fun r => (r.faiss_index, r.distance))
      (searchSimilarChunks db out ue)).Sublist out := by
  have hnone : ∀ p : Int × ℚ, (decide (p.1 ≠ -1)) = false →
      (if p.1 = -1 then none
       else (dbResolve db ue p.1).map (fun c => buildSRes c p.2)) = none := by
    intro p hpf
    have hp1 : p.1 = -1 := by simpa using hpf
    rw [if_pos hp1]
  have hmain : searchSimilarChunks db out ue =
      out.filterMap (fun p =>
        if p.1 = -1 then none
        else (dbResolve db ue p.1).map (fun c => buildSRes c p.2)) := by
    by_cases hv : validOut out = []
    · unfold searchSimilarChunks
      rw [if_pos hv]
      symm
      rw [List.filterMap_eq_nil]
      intro p hp
      have hdecf : (decide (p.1 ≠ -1)) = false := by
        have hnm := List.filter_eq_nil.mp hv p hp
        revert hnm
        cases decide (p.1 ≠ -1) <;> simp
      exact hnone p hdecf
    · unfold searchSimilarChunks
      rw [if_neg hv]
      rw [show out.filterMap (fun p =>
          if p.1 = -1 then none
          else (dbResolve db ue p.1).map (fun c => buildSRes c p.2)) =
          (validOut out).filterMap (fun p =>
            if p.1 = -1 then none
            else (dbResolve db ue p.1).map (fun c => buildSRes c p.2)) from
        (filterMap_eq_filterMap_filter _ _ hnone out).symm]
      apply filterMap_congr_mem
      intro p hp
      have hp1 : p.1 ≠ -1 := by
        have := (List.mem_filter.mp hp).2
        simpa using this
      rw [if_neg hp1]
      have hlists : (getChunksByFaissIndices db ((validOut out).map Prod.fst) ue).filter
            (fun c => decide (c.faiss_index = p.1)) =
          (db.filter (ownerOk ue)).filter (fun c => decide (c.faiss_index = p.1)) := by
        unfold getChunksByFaissIndices
        rw [List.filter_filter, List.filter_filter]
        apply List.filter_congr
        intro c _
        by_cases hfi : c.faiss_index = p.1
        · have hmem : c.faiss_index ∈ List.map Prod.fst (validOut out) := by
            rw [hfi]
            exact List.mem_map_of_mem Prod.fst hp
          have hd : decide (c.faiss_index ∈ List.map Prod.fst (validOut out)) = true :=
            decide_eq_true hmem
          rw [hd]
          simp
        · simp [hfi]
      unfold chunkMapLookup dbResolve chunkMapLookup
      rw [hlists]
  refine ⟨hmain, ?_⟩
  rw [hmain]
  apply map_filterMap_sublist
  intro p r hg
  by_cases hp : p.1 = -1
  · rw [if_pos hp] at hg
    exact absurd hg (by simp)
  · rw [if_neg hp] at hg
    obtain ⟨c, hc, hb⟩ := Option.map_eq_some'.mp hg
    have hcm := List.mem_of_mem_getLast? hc
    have hcf := (List.mem_filter.mp hcm).2
    have hfi : c.faiss_index = p.1 := of_decide_eq_true hcf
    rw [← hb]
    show (c.faiss_index, p.2) = p
    rw [hfi]

/-- C10: when `search_similar_chunks` receives a falsy owner id (`None` or
the empty string) no owner filter is added to the metadata lookup — the
lookup is by slot membership only, so results may belong to any user. -/
theorem retrieval_truthy_owner_C10 (db : List ChunkRecord) (idxs : List Int)
    (ue : Option String) (h : ue = none ∨ ue = some "") :
    getChunksByFaissIndices db idxs ue =
      db.filter (fun c => decide (c.faiss_index ∈ idxs)) := by
  rcases h with h | h <;> subst h <;>
  · unfold getChunksByFaissIndices
    apply List.filter_congr
    intro c _
    simp [ownerOk]

/-- Witness for C10: with owner `none`, the lookup returns both owner
`"a"`'s and owner `"b"`'s chunks. -/
theorem retrieval_truthy_owner_C10_witness :
    getChunksByFaissIndices [recA, recB] [0, 1] none = [recA, recB] := by
  rw [retrieval_truthy_owner_C10 [recA, recB] [0, 1] none (Or.inl rfl)]
  decide

/-- `retrieve_node` always stores exactly the threshold-filtered chunks. -/
theorem retrieveNode_retrieved (searchRes : List SRes) (st : AgentSt) :
    (retrieveNode searchRes st).retrieved_chunks =
      searchRes.filter (fun c => decide (c.distance < RELEVANCE_THRESHOLD)) := by
  unfold retrieveNode
  by_cases hc : searchRes.filter (fun c => decide (c.distance < RELEVANCE_THRESHOLD)) = []
  · rw [if_pos hc]
    exact hc.symm
  · rw [if_neg hc]

/-- `reason_node` never changes the retrieved chunks. -/
theorem reasonNode_retrieved (genR : Except String String) (st : AgentSt) :
    (reasonNode genR st).retrieved_chunks = st.retrieved_chunks := by
  unfold reasonNode
  by_cases hc : st.retrieved_chunks = []
  · rw [if_pos hc]
  · rw [if_neg hc]

/-- `answer_node` never changes the reasoning. -/
theorem answerNode_reasoning (genA : Except String String) (st : AgentSt) :
    (answerNode genA st).reasoning = st.reasoning := by
  unfold answerNode
  by_cases hc : st.retrieved_chunks = []
  · rw [if_pos hc]
  · rw [if_neg hc]

/-- `reason_node` on surviving chunks: the generation outcome decides the
reasoning, failure falling back to the fixed statement. -/
theorem reasonNode_reasoning_of_ne (genR : Except String String) (st : AgentSt)
    (h : st.retrieved_chunks ≠ []) :
    (reasonNode genR st).reasoning =
      match genR with
      | Except.ok r => r
      | Except.error _ => reasonFallback := by
  unfold reasonNode
  rw [if_neg h]

/-- `answer_node` on surviving chunks: the generation outcome decides the
answer, failure becoming an error-description string. -/
theorem answerNode_answer_of_ne (genA : Except String String) (st : AgentSt)
    (h : st.retrieved_chunks ≠ []) :
    (answerNode genA st).answer =
      match genA with
      | Except.ok a => a
      | Except.error e => "Error generating answer: " ++ e := by
  unfold answerNode
  rw [if_neg h]

/-- `retrieve_node` when no chunk survives the threshold. -/
theorem retrieveNode_empty (searchRes : List SRes) (st : AgentSt)
    (h : searchRes.filter (fun c => decide (c.distance < RELEVANCE_THRESHOLD)) = []) :
    retrieveNode searchRes st =
      { st with
        retrieved_chunks := [],
        messages := st.messages ++ [⟨"human",
          "No relevant chunks found for: " ++ st.question ++ ". All " ++
            Nat.repr searchRes.length ++
            " retrieved chunks were below relevance threshold."⟩] } := by
  unfold retrieveNode
  rw [if_pos h]

/-- `reason_node` when no chunk survived: the fixed statement plus a trace
message, then control still flows to the answer stage. -/
theorem reasonNode_empty (genR : Except String String) (st : AgentSt)
    (h : st.retrieved_chunks = []) :
    reasonNode genR st =
      { st with
        reasoning := noRelevantReasoning,
        messages := st.messages ++ [⟨"ai", noRelevantReasoning⟩] } := by
  unfold reasonNode
  rw [if_pos h]

/-- `answer_node` when no chunk survived: the fixed no-context answer plus
a trace message. -/
theorem answerNode_empty (genA : Except String String) (st : AgentSt)
    (h : st.retrieved_chunks = []) :
    answerNode genA st =
      { st with
        answer := noInfoAnswer,
        messages := st.messages ++ [⟨"ai", noInfoAnswer⟩] } := by
  unfold answerNode
  rw [if_pos h]

/-- C3 (amended): when every retrieved chunk is at or above the 1.2
threshold, both REASON and ANSWER still execute (the fixed reasoning and
the fixed no-context answer are recorded), and the trace holds exactly
3 messages — the retrieve notice, the reason stage's no-relevant-documents
message, and the no-context answer — not 2. -/
theorem agent_nocontext_C3 (q : String) (searchRes : List SRes)
    (genR genA : Except String String)
    (hall : ∀ c ∈ searchRes, RELEVANCE_THRESHOLD ≤ c.distance) :
    (runAgent q searchRes genR genA).answer = noInfoAnswer ∧
    (runAgent q searchRes genR genA).reasoning = noRelevantReasoning ∧
    (runAgent q searchRes genR genA).messages.length = 3 ∧
    List.map AgentMsg.role (runAgent q searchRes genR genA).messages =
      ["human", "ai", "ai"] := by
  have hrel : searchRes.filter (fun c => decide (c.distance < RELEVANCE_THRESHOLD)) = [] := by
    rw [List.filter_eq_nil]
    intro c hc
    simp only [decide_eq_true_eq]
    exact not_lt.mpr (hall c hc)
  unfold runAgent
  rw [retrieveNode_empty searchRes _ hrel]
  rw [reasonNode_empty genR _ rfl]
  rw [answerNode_empty genA _ rfl]
  refine ⟨rfl, rfl, ?_, ?_⟩ <;> simp [initialAgentState]

/-- Witness for C3 (amended): a concrete run whose only retrieved chunk has
distance 2. -/
theorem agent_nocontext_C3_witness :
    (runAgent "q" [cexChunk] (Except.ok "r") (Except.ok "a")).answer = noInfoAnswer ∧
    (runAgent "q" [cexChunk] (Except.ok "r") (Except.ok "a")).reasoning =
      noRelevantReasoning ∧
    (runAgent "q" [cexChunk] (Except.ok "r") (Except.ok "a")).messages.length = 3 ∧
    List.map AgentMsg.role
      (runAgent "q" [cexChunk] (Except.ok "r") (Except.ok "a")).messages =
      ["human", "ai", "ai"] :=
  agent_nocontext_C3 "q" [cexChunk] (Except.ok "r") (Except.ok "a") (by decide)

/-- Counterexample for C3 as stated: on a concrete no-context run the final
trace holds 3 messages, not the claimed 2 — `reason_node` appends its own
trace message in the empty branch too. -/
theorem agent_trace_cex_C3 :
    (runAgent "q2" [cexChunk] (Except.ok "r") (Except.ok "a")).answer = noInfoAnswer ∧
    (runAgent "q2" [cexChunk] (Except.ok "r") (Except.ok "a")).messages.length = 3 ∧
    ¬((runAgent "q2" [cexChunk] (Except.ok "r") (Except.ok "a")).messages.length = 2) := by
  decide

/-- C8: with a non-empty set of relevance-filtered chunks, a generation
failure never escapes the state machine: a REASON-stage failure makes the
reasoning the fixed fallback string, and an ANSWER-stage failure makes the
answer the error-description string, so `run_agent` still returns a
complete response. -/
theorem agent_failure_fallback_C8 (q : String) (searchRes : List SRes)
    (e1 e2 : String) (genR genA : Except String String)
    (hne : searchRes.filter (fun c => decide (c.distance < RELEVANCE_THRESHOLD)) ≠ []) :
    (runAgent q searchRes (Except.error e1) genA).reasoning = reasonFallback ∧
    (runAgent q searchRes genR (Except.error e2)).answer =
      "Error generating answer: " ++ e2 := by
  constructor
  · unfold runAgent
    rw [answerNode_reasoning]
    rw [reasonNode_reasoning_of_ne _ _ (by rw [retrieveNode_retrieved]; exact hne)]
  · unfold runAgent
    rw [answerNode_answer_of_ne _ _
      (by rw [reasonNode_retrieved, retrieveNode_retrieved]; exact hne)]

/-- Witness for C8: a concrete run with one surviving chunk and failing
providers in each stage. -/
theorem agent_failure_fallback_C8_witness :
    (runAgent "q" [lowChunk] (Except.error "E1") (Except.ok "a")).reasoning =
      reasonFallback ∧
    (runAgent "q" [lowChunk] (Except.ok "r") (Except.error "E2")).answer =
      "Error generating answer: " ++ "E2" :=
  agent_failure_fallback_C8 "q" [lowChunk] "E1" "E2" (Except.ok "r") (Except.ok "a")
    (by decide)

/-- C9: the relevance score `clamp(e^(-d/10), 0, 1)` is strictly decreasing
on non-negative distances, equals 1 at distance 0, tends to 0 as the
distance tends to infinity, and always lies in `[0, 1]`. -/
theorem relevance_score_props_C9 (d1 d2 : ℝ) (h0 : 0 ≤ d1) (hlt : d1 < d2) :
    relevance_score d2 < relevance_score d1 ∧
    relevance_score 0 = 1 ∧
    Filter.Tendsto relevance_score Filter.atTop (nhds 0) ∧
    (∀ d : ℝ, 0 ≤ relevance_score d ∧ relevance_score d ≤ 1) := by
  have hval : ∀ d : ℝ, 0 ≤ d → relevance_score d = Real.exp (-d / 10) := by
    intro d hd
    unfold relevance_score
    have hp : (0 : ℝ) ≤ Real.exp (-d / 10) := (Real.exp_pos _).le
    have h1 : Real.exp (-d / 10) ≤ 1 := by
      rw [Real.exp_le_one_iff, neg_div]
      exact neg_nonpos.mpr (div_nonneg hd (by norm_num))
    rw [max_eq_right hp, min_eq_right h1]
  refine ⟨?_, ?_, ?_, ?_⟩
  · rw [hval d1 h0, hval d2 (le_trans h0 (le_of_lt hlt))]
    apply Real.exp_lt_exp.mpr
    have h10 : (0 : ℝ) < 10 := by norm_num
    rw [div_lt_div_iff h10 h10]
    nlinarith
  · rw [hval 0 le_rfl]
    norm_num
  · have h1 : Filter.Tendsto (fun d : ℝ => d / 10) Filter.atTop Filter.atTop :=
      Filter.tendsto_id.atTop_div_const (by norm_num)
    have h2 : Filter.Tendsto (fun d : ℝ => -d / 10) Filter.atTop Filter.atBot := by
      simpa [neg_div] using Filter.tendsto_neg_atBot_iff.mpr h1
    have h3 : Filter.Tendsto (fun d : ℝ => Real.exp (-d / 10)) Filter.atTop (nhds 0) :=
      Real.tendsto_exp_atBot.comp h2
    have h4 := Filter.Tendsto.max
      (tendsto_const_nhds : Filter.Tendsto (fun _ : ℝ => (0 : ℝ)) Filter.atTop (nhds 0)) h3
    have h5 := Filter.Tendsto.min
      (tendsto_const_nhds : Filter.Tendsto (fun _ : ℝ => (1 : ℝ)) Filter.atTop (nhds 1)) h4
    have hz : (min 1 (max 0 0) : ℝ) = 0 := by norm_num
    unfold relevance_score
    simpa [hz] using h5
  · intro d
    unfold relevance_score
    exact ⟨le_min (by norm_num) (le_max_left _ _), min_le_left _ _⟩

/-- Witness for C9: the properties at the concrete distances 0 and 1. -/
theorem relevance_score_props_C9_witness :
    relevance_score 1 < relevance_score 0 ∧
    relevance_score 0 = 1 ∧
    Filter.Tendsto relevance_score Filter.atTop (nhds 0) ∧
    (∀ d : ℝ, 0 ≤ relevance_score d ∧ relevance_score d ≤ 1) :=
  relevance_score_props_C9 0 1 le_rfl (by norm_num)
